import Mathlib

/-!
# Verification of the "Private Send" orchestrator (`src/app/private-send/page.tsx`)

This file gives a shallow embedding of the private-send subsystem of the
repository and proves/refutes the frozen claims about it.

Modelling conventions:

* JavaScript numbers are modelled as exact integers (`ℤ`) where the source
  keeps integer values (lamport amounts, millisecond delays), and as exact
  rationals (`ℚ`) where the source performs fractional arithmetic (division
  producing a `target`, the random split fractions, the parsed SOL amount).
  Every concrete input used in a witness or counterexample is chosen so that
  the corresponding IEEE-754 double computation is exact, so the rational
  model agrees with the JavaScript semantics at those points.
* `Math.random()`-dependent output (`generateRandomSplits`) is modelled by
  passing the produced list of fractions (`splits`) as an explicit argument;
  `generateRandomSplits(numChunks)` always returns `numChunks` values, which
  appears as the hypothesis `splits.length = numChunks`.
* External collaborators (RPC connection, Swig SDK, Privacy Cash pool) are
  modelled at the boundary of the helper functions that wrap them: each
  helper contributes the external calls it performs to an explicit event
  trace.  Free-form human-readable progress messages are not modelled; a step
  callback invocation is recorded as its `(step, status)` pair, which is all
  the claims refer to.
-/

namespace PrivateSend

/-! ## Constants (lines 40–42 of the source) -/

def MIN_CHUNKS : ℤ := 2
def MAX_CHUNKS : ℤ := 10
def MAX_DELAY_MS : ℤ := 4 * 60 * 60 * 1000
def LAMPORTS_PER_SOL : ℤ := 1000000000

/-! ## Key formatting and validation (lines 240–243, 625) -/

/-- The test `key.startsWith(0x)` of the source, expressed on the character
list (the two are equivalent; the character-list form also evaluates inside
the kernel). -/
def startsWith0x (s : String) : Bool :=
  s.data.take 2 = ['0', 'x']

/-- The formatting `formattedKey = key.startsWith(0x) ? key : 0x + key`. -/
def formatKey (key : String) : String :=
  if startsWith0x key then key else "0x" ++ key

/-- One character of `[a-fA-F0-9]`. -/
def isHexChar (c : Char) : Bool :=
  c.isDigit || ('a' ≤ c && c ≤ 'f') || ('A' ≤ c && c ≤ 'F')

/-- `isValidPrivateKey` (lines 240–243): the regex `^0x[a-fA-F0-9]{64}$`
applied to the `0x`-formatted key. -/
def isValidPrivateKey (key : String) : Bool :=
  let f := formatKey key
  f.length = 66 && startsWith0x f && (f.data.drop 2).all isHexChar

/-! ## Delay scheduler (`calculateDelayMs`, lines 269–274) -/

/-- `calculateDelayMs` (lines 269–274): 0 at `MIN_CHUNKS`; otherwise linear
interpolation up to `MAX_DELAY_MS`, halved (floored) because the pipeline
sleeps twice. -/
def calculateDelayMs (numChunks : ℤ) : ℤ :=
  if numChunks ≤ MIN_CHUNKS then 0
  else
    let totalDelay : ℚ :=
      ((numChunks - MIN_CHUNKS : ℤ) : ℚ) / ((MAX_CHUNKS - MIN_CHUNKS : ℤ) : ℚ)
        * (MAX_DELAY_MS : ℚ)
    ⌊totalDelay / 2⌋

/-! ## Chunk planner (`matchChunksToPreviousDeposits`, lines 141–198) -/

/-- The fallback split of the empty-history branch (lines 146–156):
`splits` models the list returned by `generateRandomSplits(numChunks)`.
Every chunk but the last is `Math.floor(totalAmount * split)`; the chunk at
index `numChunks - 1` is `totalAmount` minus the sum of the other floors. -/
def emptySplit (totalAmount : ℤ) (numChunks : ℕ) (splits : List ℚ) : List ℤ :=
  let previousSum := (splits.dropLast.map fun s => ⌊(totalAmount : ℚ) * s⌋).sum
  splits.enum.map fun p =>
    if p.1 = numChunks - 1 then totalAmount - previousSum
    else ⌊(totalAmount : ℚ) * p.2⌋

/-- The candidate search of lines 167–180: starting from
`(previousAmounts[0], 0)` (taken unconditionally), scan all indices,
skipping used ones, and replace the candidate whenever the distance to
`target` strictly decreases and the value fits `remaining`. -/
def findBest (previousAmounts : List ℤ) (used : List ℕ) (target : ℚ)
    (remaining : ℤ) : ℤ × ℕ :=
  let init : ℤ × ℕ × ℚ :=
    (previousAmounts.headI, 0, |(previousAmounts.headI : ℚ) - target|)
  let final := (List.range previousAmounts.length).foldl
    (fun b j =>
      if j ∈ used then b
      else
        let v := previousAmounts.getD j 0
        let d := |(v : ℚ) - target|
        if d < b.2.2 ∧ v ≤ remaining then (v, j, d) else b)
    init
  (final.1, final.2.1)

/-- The history-matching loop of lines 158–195, parameterised by the number
of slots still to fill (`numChunks - i` in the source).  With one slot left
the loop has finished and the remainder is pushed (line 195).  In the source
both `targetAmount` and the fallback `split` are the same expression
`remainingAmount / (numChunks - i)`. -/
def matchLoop (previousAmounts : List ℤ) :
    ℕ → ℤ → List ℕ → List ℤ
  | 0, remaining, _ => [remaining]
  | 1, remaining, _ => [remaining]
  | (slots + 2), remaining, used =>
      let target : ℚ := (remaining : ℚ) / ((slots + 2 : ℕ) : ℚ)
      let best := findBest previousAmounts used target remaining
      if best.1 ≤ remaining then
        best.1 :: matchLoop previousAmounts (slots + 1) (remaining - best.1)
          (best.2 :: used)
      else
        ⌊target⌋ :: matchLoop previousAmounts (slots + 1) (remaining - ⌊target⌋) used

/-- `matchChunksToPreviousDeposits` (lines 141–198).  `splits` models the
output of `generateRandomSplits`, used only in the empty-history branch. -/
def matchChunksToPreviousDeposits (totalAmount : ℤ) (numChunks : ℕ)
    (previousAmounts : List ℤ) (splits : List ℚ) : List ℤ :=
  if previousAmounts.isEmpty then emptySplit totalAmount numChunks splits
  else matchLoop previousAmounts numChunks totalAmount []

/-! ## Spec-side chunk planner (for the refinement claim C6)

The following definitions follow the wording of the specification (§4.2,
step 2), *not* the source: "iteratively pick, for each of the first
`chunkCount − 1` slots, the historical amount closest to
`remaining / slotsLeft` that does not exceed the remaining budget and has
not already been used in this run; subtract it from the remaining budget.
If no historical value fits the remaining budget, fall back to a
proportional split for that slot.  The final slot always receives whatever
remains." -/

/-- Spec-side candidate search: the closest-to-target value among indices
that are unused *and* fit the budget; `none` when no historical value
fits. -/
def specFindBest (previousAmounts : List ℤ) (used : List ℕ) (target : ℚ)
    (remaining : ℤ) : Option (ℤ × ℕ) :=
  (List.range previousAmounts.length).foldl
    (fun acc j =>
      if j ∈ used then acc
      else
        let v := previousAmounts.getD j 0
        if v ≤ remaining then
          match acc with
          | none => some (v, j)
          | some b => if |(v : ℚ) - target| < |(b.1 : ℚ) - target| then some (v, j) else acc
        else acc)
    none

/-- Spec-side matching loop. -/
def specMatchLoop (previousAmounts : List ℤ) :
    ℕ → ℤ → List ℕ → List ℤ
  | 0, remaining, _ => [remaining]
  | 1, remaining, _ => [remaining]
  | (slots + 2), remaining, used =>
      let target : ℚ := (remaining : ℚ) / ((slots + 2 : ℕ) : ℚ)
      match specFindBest previousAmounts used target remaining with
      | some b =>
          b.1 :: specMatchLoop previousAmounts (slots + 1) (remaining - b.1) (b.2 :: used)
      | none =>
          ⌊target⌋ :: specMatchLoop previousAmounts (slots + 1) (remaining - ⌊target⌋) used

/-- Spec-side planner for non-empty history. -/
def specMatchChunks (totalAmount : ℤ) (numChunks : ℕ)
    (previousAmounts : List ℤ) : List ℤ :=
  specMatchLoop previousAmounts numChunks totalAmount []

/-! ## Deterministic derivation (`deriveBurnerPrivateKey` lines 227–235,
`deriveTempKeypair` lines 463–472)

The cryptographic primitives used by the derivation come from the `viem`
library: `privateKeyToAccount(key).address`, `account.signMessage` (EIP-191
message signing, which viem implements with deterministic RFC-6979 ECDSA
nonces), `keccak256`, and `Keypair.fromSeed`.  They are pure functions of
their arguments and are modelled as abstract function fields of
`CryptoPrims`.  A `World` bundles the ambient sources of nondeterminism the
surrounding JavaScript runtime offers (clock, entropy, machine identity);
the derivation functions receive one so that dependence on any of them
would be expressible, and the determinism claim states that the output does
not depend on it. -/

structure CryptoPrims where
  addressOfKey : String → String
  signMessage : String → String → String
  keccak256 : String → String
  keypairFromSeed : String → String

structure World where
  now : ℕ
  entropy : ℕ → ℕ
  machineId : ℕ

/-- `deriveBurnerPrivateKey` (lines 227–235): format the key, build the
label `swig_burner_wallet_<index>_<address>`, sign it, and hash the
signature. -/
def deriveBurnerPrivateKey (cp : CryptoPrims) (_w : World)
    (mainPrivateKey : String) (index : ℕ) : String :=
  let formattedKey := formatKey mainPrivateKey
  let address := cp.addressOfKey formattedKey
  let message := "swig_burner_wallet_" ++ toString index ++ "_" ++ address
  cp.keccak256 (cp.signMessage formattedKey message)

/-- `deriveTempKeypair` (lines 463–472): same construction with the label
`privacy_temp_<index>_<address>`, the hash used as a Solana keypair seed. -/
def deriveTempKeypair (cp : CryptoPrims) (_w : World)
    (evmPrivateKey : String) (index : ℕ) : String :=
  let formattedKey := formatKey evmPrivateKey
  let address := cp.addressOfKey formattedKey
  let message := "privacy_temp_" ++ toString index ++ "_" ++ address
  cp.keypairFromSeed (cp.keccak256 (cp.signMessage formattedKey message))

/-! ## The orchestrator (`executePrivateSend`, lines 617–834)

The run is modelled as a pure function producing the list of observable
events (step-callback invocations and external calls, in program order)
together with the outcome: the thrown error message, or the
`PrivateSendResult`.

Wallets are identified by their derivation index: index 0 is the main
wallet (`mainTempIndex = 0`, line 680), index `k ∈ [1, numChunks]` is
burner `k`.  A transaction signature returned by a pool operation is
modelled by the identity of the call that produced it (`Sig`); the real
strings are opaque transaction ids supplied by the chain.  The temp keypair
used by a pool operation is `deriveTempKeypair(ownerKey, tempIndex)`; in
every call the owner key is the own key of the wallet, so the wallet index
determines it and the `tempIndex` field of the call records it. -/

inductive Status
  | pending | running | completed | error
deriving DecidableEq

inductive Addr
  | wallet (idx : ℕ)
  | dest (address : String)
deriving DecidableEq

inductive Sig
  | deposit (tempIndex : ℕ) (amount : ℤ)
  | withdraw (tempIndex : ℕ) (amount : ℤ) (recipient : Addr)
deriving DecidableEq

inductive ExtCall
  /-- `getPreviousDepositAmounts(connection, 100)`: signature listing plus
  parsed-transaction fetches against the tree token account of the pool. -/
  | historyQuery (limit : ℕ)
  /-- `fetchSwig` against the derived Swig PDA of wallet `idx`. -/
  | fetchSwig (idx : ℕ)
  /-- the wallet-creation branch of `ensureSwigWalletExists`: blockhash
  fetch, `getCreateSwigInstruction`, and the `/api/transaction/sign` POST. -/
  | createWallet (idx : ℕ)
  /-- `connection.getBalance(mainWallet.walletAddress)`. -/
  | getBalance
  /-- `transferFromSwigToAddress` from wallet `idx` to its temp keypair
  (slot/blockhash fetches, sign instructions, `/api/transaction/sign`). -/
  | swigTransfer (fromIdx : ℕ) (amount : ℤ)
  /-- the Privacy Cash `deposit` call made with temp keypair `tempIndex`. -/
  | poolDeposit (tempIndex : ℕ) (amount : ℤ)
  /-- the Privacy Cash `withdraw` call made with temp keypair `tempIndex`
  toward `recipient`. -/
  | poolWithdraw (tempIndex : ℕ) (amount : ℤ) (recipient : Addr)
  /-- an awaited `setTimeout` of `ms` milliseconds. -/
  | sleep (ms : ℤ)
deriving DecidableEq

inductive Event
  /-- an `onStepUpdate` invocation, recorded as step number and status
  (the free-form message text is not modelled). -/
  | step (n : ℕ) (st : Status)
  | call (c : ExtCall)
deriving DecidableEq

/-- `PrivateSendResult` (lines 51–58).  `totalAmount` keeps the original
amount input (`none` models the empty string); `burnerAddresses` keeps the
burner wallet addresses by derivation index. -/
structure PrivateSendResult where
  success : Bool
  signatures : List Sig
  totalAmount : Option ℚ
  recipient : String
  burnerAddresses : List Addr
  matchedAmounts : List ℤ
deriving DecidableEq

/-- The environment a run observes through its collaborators:
`validSolanaAddress` models the `PublicKey` constructor acceptance test;
`previousAmounts` the result of the pool-history query; `splits` the
fractions drawn by `generateRandomSplits`; `mainBalance` the main-wallet
balance; `swigExists k` whether the Swig account of wallet `k` already
exists when `ensureSwigWalletExists` probes it; `ticks5`/`ticks10` how many
extra countdown refreshes the two `sleepWithCountdown` loops run (each loop
issues at least one update when the delay is positive). -/
structure Env where
  validSolanaAddress : String → Bool
  previousAmounts : List ℤ
  splits : List ℚ
  mainBalance : ℤ
  swigExists : ℕ → Bool
  ticks5 : ℕ
  ticks10 : ℕ

/-- `ensureSwigWalletExists` (lines 327–375): probe the Swig account; when
absent, report progress through the supplied callback (`stepNo` is the step
number the call site wired in) and create the wallet, then sleep 2000 ms. -/
def ensureSwigEvents (alreadyExists : Bool) (stepNo idx : ℕ) : List Event :=
  Event.call (.fetchSwig idx) ::
    (if alreadyExists then []
     else [.step stepNo .running, .call (.createWallet idx), .call (.sleep 2000)])

/-- `depositToPoolWithSwig` (lines 390–458), as events: two progress
updates, the Swig→temp transfer of `amount + 15000000` (fee headroom,
line 417), a 3000 ms wait, the pool deposit, a third update, and a 5000 ms
indexing wait. -/
def depositToPoolEvents (stepNo fromIdx tempIndex : ℕ) (amount : ℤ) : List Event :=
  [.step stepNo .running, .step stepNo .running,
   .call (.swigTransfer fromIdx (amount + 15000000)), .call (.sleep 3000),
   .call (.poolDeposit tempIndex amount), .step stepNo .running,
   .call (.sleep 5000)]

/-- `withdrawFromPoolWithSwig` (lines 541–594), as events: one progress
update then the pool withdrawal. -/
def withdrawFromPoolEvents (stepNo tempIndex : ℕ) (amount : ℤ)
    (recipient : Addr) : List Event :=
  [.step stepNo .running, .call (.poolWithdraw tempIndex amount recipient)]

/-- `sleepWithCountdown` (lines 599–612) for a positive delay: at least one
countdown update, `ticks` further ones, each followed by a 1000 ms wait. -/
def countdownEvents (stepNo ticks : ℕ) : List Event :=
  (List.replicate (ticks + 1) [Event.step stepNo .running, .call (.sleep 1000)]).flatten

/-- The equal-share amount of burner `i` (lines 734–741):
`chunkAmount = Math.floor(amountLamports / numChunks)` for every burner,
plus `amountLamports % numChunks` for the last one. -/
def chunkAt (amountLamports : ℤ) (numChunks i : ℕ) : ℤ :=
  if i = numChunks - 1 then
    amountLamports / numChunks + amountLamports % numChunks
  else amountLamports / numChunks

/-- The `withdrawalAmounts` array accumulated in step 7 (line 736–742). -/
def withdrawalAmounts (amountLamports : ℤ) (numChunks : ℕ) : List ℤ :=
  (List.range numChunks).map (chunkAt amountLamports numChunks)

/-- Step 6 (lines 702–727): for each burner, derive its key, probe/create
its Swig (progress wired to step **5**, line 714), fetch the wallet info,
and record its address. -/
def burnerLoop (env : Env) (numChunks : ℕ) : List Event × List Addr :=
  (List.range numChunks).foldl
    (fun acc k =>
      (acc.1 ++ (ensureSwigEvents (env.swigExists (k + 1)) 5 (k + 1)
            ++ [.call (.fetchSwig (k + 1))]),
       acc.2 ++ [Addr.wallet (k + 1)]))
    ([], [])

/-- Step 7 (lines 729–756): per burner, a progress update, then a pool
withdrawal of its equal share to its wallet, with the main temp keypair. -/
def step7Loop (amountLamports : ℤ) (numChunks : ℕ) : List Event × List Sig :=
  (List.range numChunks).foldl
    (fun acc i =>
      let amount := chunkAt amountLamports numChunks i
      (acc.1 ++ (Event.step 7 .running ::
            withdrawFromPoolEvents 7 0 amount (Addr.wallet (i + 1))),
       acc.2 ++ [Sig.withdraw 0 amount (Addr.wallet (i + 1))]))
    ([], [])

/-- Step 8 (lines 763–784): per burner, a progress update, then a pool
deposit of `withdrawalAmounts[i]` from its wallet with temp keypair
`i + 1`. -/
def step8Loop (amountLamports : ℤ) (numChunks : ℕ) : List Event × List Sig :=
  (List.range numChunks).foldl
    (fun acc i =>
      let amount := (withdrawalAmounts amountLamports numChunks).getD i 0
      (acc.1 ++ (Event.step 8 .running ::
            depositToPoolEvents 8 (i + 1) (i + 1) amount),
       acc.2 ++ [Sig.deposit (i + 1) amount]))
    ([], [])

/-- Step 11 (lines 801–822): per burner, a progress update, then a pool
withdrawal of `withdrawalAmounts[i]` to the destination with temp keypair
`i + 1`. -/
def step11Loop (amountLamports : ℤ) (numChunks : ℕ) (recipient : String) :
    List Event × List Sig :=
  (List.range numChunks).foldl
    (fun acc i =>
      let amount := (withdrawalAmounts amountLamports numChunks).getD i 0
      (acc.1 ++ (Event.step 11 .running ::
            withdrawFromPoolEvents 11 (i + 1) amount (Addr.dest recipient)),
       acc.2 ++ [Sig.withdraw (i + 1) amount (Addr.dest recipient)]))
    ([], [])

/-- Events up to and including the balance query of step 2 (lines 646–668):
step 1 (history query and match), then step 2 up to `getBalance`. -/
def preBalanceEvents (env : Env) : List Event :=
  [Event.step 1 .running, .call (.historyQuery 100), .step 1 .completed,
   .step 2 .running]
  ++ ensureSwigEvents (env.swigExists 0) 2 0
  ++ [.call (.fetchSwig 0), .call .getBalance]

/-- The full event trace of a run that passes validation and the balance
check (lines 676–824). -/
def successEvents (env : Env) (amountLamports : ℤ) (numChunks : ℕ)
    (recipient : String) (delayMs : ℤ) : List Event :=
  preBalanceEvents env
  ++ [Event.step 2 .completed]
  ++ [Event.step 3 .running] ++ depositToPoolEvents 3 0 0 amountLamports
  ++ [Event.step 3 .completed]
  ++ [Event.step 4 .running, .call (.sleep 10000), .step 4 .completed]
  ++ (if 0 < delayMs then countdownEvents 5 env.ticks5 ++ [Event.step 5 .completed]
      else [])
  ++ [Event.step 6 .running] ++ (burnerLoop env numChunks).1
  ++ [Event.step 6 .completed]
  ++ [Event.step 7 .running] ++ (step7Loop amountLamports numChunks).1
  ++ [Event.step 7 .completed]
  ++ [Event.call (.sleep 3000)]
  ++ [Event.step 8 .running] ++ (step8Loop amountLamports numChunks).1
  ++ [Event.step 8 .completed]
  ++ [Event.step 9 .running, .call (.sleep 10000), .step 9 .completed]
  ++ (if 0 < delayMs then countdownEvents 10 env.ticks10 ++ [Event.step 10 .completed]
      else [])
  ++ [Event.step 11 .running] ++ (step11Loop amountLamports numChunks recipient).1
  ++ [Event.step 11 .completed]

/-- `executePrivateSend` (lines 617–834).  `amount` is the parsed value of
the amount field of the form (`none` for the empty string; the field is a
numeric input, so its value is empty or a decimal numeral).  Returns the
events emitted before returning or throwing, and the outcome. -/
def executePrivateSend (env : Env) (privateKey recipient : String)
    (amount : Option ℚ) (numChunks : ℤ) :
    List Event × Except String PrivateSendResult :=
  let formattedKey := formatKey privateKey
  let amountLamports : ℤ := ⌊amount.getD 0 * (LAMPORTS_PER_SOL : ℚ)⌋
  let delayMs := calculateDelayMs numChunks
  if ¬ isValidPrivateKey formattedKey then
    ([], .error "Invalid Ethereum private key")
  else if ¬ env.validSolanaAddress recipient then
    ([], .error "Invalid Solana recipient address")
  else if amount.isNone ∨ amount.getD 0 ≤ 0 then
    ([], .error "Amount must be greater than 0")
  else if numChunks < MIN_CHUNKS ∨ MAX_CHUNKS < numChunks then
    ([], .error "Privacy level must be between 2 and 10")
  else
    let n := numChunks.toNat
    let matchedAmounts :=
      matchChunksToPreviousDeposits amountLamports n env.previousAmounts env.splits
    if env.mainBalance < amountLamports + 1000000 then
      (preBalanceEvents env, .error "Insufficient balance")
    else
      (successEvents env amountLamports n recipient delayMs,
       .ok { success := true
             signatures := Sig.deposit 0 amountLamports ::
               ((step7Loop amountLamports n).2 ++ (step8Loop amountLamports n).2
                 ++ (step11Loop amountLamports n recipient).2)
             totalAmount := amount
             recipient := recipient
             burnerAddresses := (burnerLoop env n).2
             matchedAmounts := matchedAmounts })

/-! ## Trace observations -/

/-- The step-callback invocations of a trace, as `(step, status)` pairs. -/
def stepEvts (tr : List Event) : List (ℕ × Status) :=
  tr.filterMap fun e =>
    match e with
    | .step n st => some (n, st)
    | .call _ => none

def isTerminalS : Status → Bool
  | .completed => true
  | .error => true
  | _ => false

def isActiveS : Status → Bool
  | .running => true
  | .pending => true
  | _ => false

/-- No backward transition between two step events in trace order: once the
earlier one reports a terminal status for a step, the later one may not
report that same step active again. -/
def StatusOk (a b : ℕ × Status) : Prop :=
  a.1 = b.1 → isTerminalS a.2 = true → isActiveS b.2 = true → False

instance : DecidableRel StatusOk := fun a b => by
  unfold StatusOk; infer_instance

/-- Amounts of the step-7 pool withdrawals (main temp keypair, to a burner
wallet), in trace order. -/
def step7Amounts (tr : List Event) : List ℤ :=
  tr.filterMap fun e =>
    match e with
    | .call (.poolWithdraw 0 a (.wallet _)) => some a
    | _ => none

/-- Amounts of the step-8 pool deposits (burner temp keypairs), in trace
order. -/
def step8Amounts (tr : List Event) : List ℤ :=
  tr.filterMap fun e =>
    match e with
    | .call (.poolDeposit (_ + 1) a) => some a
    | _ => none

/-- Amounts of the step-11 pool withdrawals (burner temp keypairs, to the
destination), in trace order. -/
def step11Amounts (tr : List Event) : List ℤ :=
  tr.filterMap fun e =>
    match e with
    | .call (.poolWithdraw (_ + 1) a (.dest _)) => some a
    | _ => none

/-- `matchedAmounts` with the `matchedAmounts` field cleared, to compare
everything else of two results. -/
def clearMatched (r : PrivateSendResult) : PrivateSendResult :=
  { r with matchedAmounts := [] }

/-- Characterisation of what the history-matching loop puts into each slot,
used for the amended claim C6: with `slots` slots left, the produced list
fills the non-final slots with either a historical amount not exceeding the
budget remaining at that slot (`hist`) or the floored proportional split of
that remaining budget (`fallback`), and the final slot receives the whole
remaining budget (`last`). -/
inductive PicksOk (prev : List ℤ) : ℕ → ℤ → List ℤ → Prop
  | last (rem : ℤ) : PicksOk prev 1 rem [rem]
  | hist {slots : ℕ} {rem c : ℤ} {rest : List ℤ}
      (hc : c ∈ prev) (hle : c ≤ rem)
      (h : PicksOk prev (slots + 1) (rem - c) rest) :
      PicksOk prev (slots + 2) rem (c :: rest)
  | fallback {slots : ℕ} {rem : ℤ} {rest : List ℤ}
      (h : PicksOk prev (slots + 1)
        (rem - ⌊(rem : ℚ) / ((slots + 2 : ℕ) : ℚ)⌋) rest) :
      PicksOk prev (slots + 2) rem
        (⌊(rem : ℚ) / ((slots + 2 : ℕ) : ℚ)⌋ :: rest)

/-! ## Step-status blocks (for claim C9) -/

/-- A contiguous run of step-callback events for one step: `k` `running`
reports followed by one `completed` report. -/
def runBlock (s k : ℕ) : List (ℕ × Status) :=
  List.replicate k (s, Status.running) ++ [(s, Status.completed)]

/-- Concatenation of `runBlock`s. -/
def renderBlocks (bs : List (ℕ × ℕ)) : List (ℕ × Status) :=
  bs.flatMap fun p => runBlock p.1 p.2

/-! ## Concrete instances used by witnesses and counterexamples -/

/-- A syntactically valid Ethereum private key: 64 hex digits. -/
def keyA : String :=
  "aaaaaaaaaaaaaaaaaaaaaaaaaaaaaaaaaaaaaaaaaaaaaaaaaaaaaaaaaaaaaaaa"

/-- An environment in which every Swig wallet already exists, the pool
history is empty, and the random splits are two equal halves. -/
def envA : Env :=
  { validSolanaAddress := fun _ => true
    previousAmounts := []
    splits := [1/2, 1/2]
    mainBalance := 2000000000
    swigExists := fun _ => true
    ticks5 := 0
    ticks10 := 0 }

/-- Like `envA` but the Swig wallet of burner 1 does not exist yet (so step 6
runs the creation branch) and the splits suit three chunks. -/
def envB : Env :=
  { validSolanaAddress := fun _ => true
    previousAmounts := []
    splits := [1/4, 1/4, 1/2]
    mainBalance := 2000000000
    swigExists := fun k => decide (k ≠ 1)
    ticks5 := 0
    ticks10 := 0 }

/-- Whether a run returned normally (rather than throwing). -/
def runOutcomeOk (p : List Event × Except String PrivateSendResult) : Bool :=
  match p.2 with
  | .ok _ => true
  | .error _ => false

/-- The result of the successful run
`executePrivateSend envA keyA "R" (some 1) 2`: 1 SOL in two equal chunks of
0.5 SOL through two burner wallets. -/
def resA : PrivateSendResult :=
  { success := true
    signatures :=
      [Sig.deposit 0 1000000000,
       Sig.withdraw 0 500000000 (Addr.wallet 1),
       Sig.withdraw 0 500000000 (Addr.wallet 2),
       Sig.deposit 1 500000000,
       Sig.deposit 2 500000000,
       Sig.withdraw 1 500000000 (Addr.dest "R"),
       Sig.withdraw 2 500000000 (Addr.dest "R")]
    totalAmount := some 1
    recipient := "R"
    burnerAddresses := [Addr.wallet 1, Addr.wallet 2]
    matchedAmounts := [500000000, 500000000] }

/-! ## Helper lemmas -/

section Helpers

variable {α β γ : Type}

lemma foldl_acc_pair (f : γ → List α) (g : γ → List β) (l : List γ)
    (a₀ : List α) (b₀ : List β) :
    l.foldl (fun acc x => (acc.1 ++ f x, acc.2 ++ g x)) (a₀, b₀) =
      (a₀ ++ l.flatMap f, b₀ ++ l.flatMap g) := by
  induction l generalizing a₀ b₀ with
  | nil => simp
  | cons x xs ih => simp [ih, List.flatMap_cons]

lemma flatMap_single (f : α → β) (l : List α) :
    l.flatMap (fun x => [f x]) = l.map f := by
  induction l with
  | nil => rfl
  | cons x xs ih => simp [List.flatMap_cons, ih]

lemma burnerLoop_eq (env : Env) (n : ℕ) :
    burnerLoop env n =
      ((List.range n).flatMap fun k =>
         ensureSwigEvents (env.swigExists (k + 1)) 5 (k + 1)
           ++ [.call (.fetchSwig (k + 1))],
       (List.range n).map fun k => Addr.wallet (k + 1)) := by
  unfold burnerLoop
  rw [foldl_acc_pair, flatMap_single]
  simp

lemma step7Loop_eq (A : ℤ) (n : ℕ) :
    step7Loop A n =
      ((List.range n).flatMap fun i =>
         Event.step 7 .running ::
           withdrawFromPoolEvents 7 0 (chunkAt A n i) (Addr.wallet (i + 1)),
       (List.range n).map fun i =>
         Sig.withdraw 0 (chunkAt A n i) (Addr.wallet (i + 1))) := by
  unfold step7Loop
  rw [foldl_acc_pair, flatMap_single]
  simp

lemma getD_withdrawalAmounts (A : ℤ) (n i : ℕ) (h : i < n) :
    (withdrawalAmounts A n).getD i 0 = chunkAt A n i := by
  simp [withdrawalAmounts, List.getD, h]

lemma step8Loop_eq (A : ℤ) (n : ℕ) :
    step8Loop A n =
      ((List.range n).flatMap fun i =>
         Event.step 8 .running :: depositToPoolEvents 8 (i + 1) (i + 1) (chunkAt A n i),
       (List.range n).map fun i => Sig.deposit (i + 1) (chunkAt A n i)) := by
  unfold step8Loop
  rw [foldl_acc_pair, flatMap_single]
  refine congrArg₂ Prod.mk ?_ ?_
  · rw [List.nil_append]
    exact List.flatMap_congr fun i hi => by
      rw [getD_withdrawalAmounts A n i (List.mem_range.mp hi)]
  · rw [List.nil_append]
    exact List.map_congr_left fun i hi => by
      rw [getD_withdrawalAmounts A n i (List.mem_range.mp hi)]

lemma step11Loop_eq (A : ℤ) (n : ℕ) (r : String) :
    step11Loop A n r =
      ((List.range n).flatMap fun i =>
         Event.step 11 .running ::
           withdrawFromPoolEvents 11 (i + 1) (chunkAt A n i) (Addr.dest r),
       (List.range n).map fun i =>
         Sig.withdraw (i + 1) (chunkAt A n i) (Addr.dest r)) := by
  unfold step11Loop
  rw [foldl_acc_pair, flatMap_single]
  refine congrArg₂ Prod.mk ?_ ?_
  · rw [List.nil_append]
    exact List.flatMap_congr fun i hi => by
      rw [getD_withdrawalAmounts A n i (List.mem_range.mp hi)]
  · rw [List.nil_append]
    exact List.map_congr_left fun i hi => by
      rw [getD_withdrawalAmounts A n i (List.mem_range.mp hi)]

lemma withdrawalAmounts_eq (A : ℤ) {n : ℕ} (h : 1 ≤ n) :
    withdrawalAmounts A n =
      List.replicate (n - 1) (A / n) ++ [A / n + A % n] := by
  obtain ⟨m, rfl⟩ : ∃ m, n = m + 1 := ⟨n - 1, by omega⟩
  unfold withdrawalAmounts
  rw [List.range_succ, List.map_append]
  refine congrArg₂ _ ?_ ?_
  · rw [List.eq_replicate_iff]
    refine ⟨by simp, fun b hb => ?_⟩
    obtain ⟨i, hi, rfl⟩ := List.mem_map.mp hb
    have : i < m := List.mem_range.mp hi
    simp only [chunkAt, Nat.add_sub_cancel]
    rw [if_neg (by omega)]
  · simp [chunkAt]

lemma withdrawalAmounts_sum (A : ℤ) {n : ℕ} (h : 1 ≤ n) :
    (withdrawalAmounts A n).sum = A := by
  rw [withdrawalAmounts_eq A h, List.sum_append, List.sum_replicate,
    List.sum_cons, List.sum_nil, nsmul_eq_mul]
  have h2 : (n : ℤ) * (A / n) + A % n = A := Int.ediv_add_emod A n
  have h3 : ((n - 1 : ℕ) : ℤ) = (n : ℤ) - 1 := by
    push_cast [h]
    ring
  rw [h3]
  linarith

lemma matchLoop_length (prev : List ℤ) (j : ℕ) :
    ∀ rem used, (matchLoop prev (j + 1) rem used).length = j + 1 := by
  induction j with
  | zero => intro rem used; rfl
  | succ k ih =>
      intro rem used
      show (matchLoop prev (k + 2) rem used).length = k + 2
      unfold matchLoop
      dsimp only
      split <;> simp [ih]

lemma matchLoop_sum (prev : List ℤ) (j : ℕ) :
    ∀ rem used, (matchLoop prev (j + 1) rem used).sum = rem := by
  induction j with
  | zero => intro rem used; simp [matchLoop]
  | succ k ih =>
      intro rem used
      show (matchLoop prev (k + 2) rem used).sum = rem
      unfold matchLoop
      dsimp only
      split <;> simp [ih]

lemma emptySplit_length (t : ℤ) (n : ℕ) (splits : List ℚ) :
    (emptySplit t n splits).length = splits.length := by
  simp [emptySplit]

lemma emptySplit_sum (t : ℤ) {n : ℕ} {splits : List ℚ}
    (h : splits.length = n) (hn : 1 ≤ n) :
    (emptySplit t n splits).sum = t := by
  rcases List.eq_nil_or_concat splits with rfl | ⟨l, a, rfl⟩
  · simp at h
    omega
  · rw [List.concat_eq_append] at h ⊢
    have hl : l.length = n - 1 := by
      simp at h
      omega
    unfold emptySplit
    rw [List.dropLast_concat, List.enum_append, List.map_append, List.sum_append]
    have henum : ∀ p ∈ l.enum, p.1 < l.length := fun p hp =>
      List.fst_lt_of_mem_enum hp
    have h1 :
        (l.enum.map fun p =>
          if p.1 = n - 1 then
            t - ((l.map fun s => ⌊(t : ℚ) * s⌋).sum)
          else ⌊(t : ℚ) * p.2⌋) =
        l.enum.map fun p => ⌊(t : ℚ) * p.2⌋ := by
      refine List.map_congr_left fun p hp => ?_
      have : p.1 < l.length := henum p hp
      rw [if_neg (by omega)]
    rw [h1]
    have h2 : (l.enum.map fun p => ⌊(t : ℚ) * p.2⌋) =
        l.map fun s => ⌊(t : ℚ) * s⌋ := by
      have := List.enum_map_snd l
      calc l.enum.map (fun p => ⌊(t : ℚ) * p.2⌋)
          = (l.enum.map Prod.snd).map (fun s => ⌊(t : ℚ) * s⌋) := by
            rw [List.map_map]
            rfl
        _ = l.map fun s => ⌊(t : ℚ) * s⌋ := by rw [this]
    rw [h2]
    have h3 : [((l.length : ℕ), a)].map
        (fun p :  ℕ × ℚ =>
          if p.1 = n - 1 then
            t - ((l.map fun s => ⌊(t : ℚ) * s⌋).sum)
          else ⌊(t : ℚ) * p.2⌋) =
        [t - ((l.map fun s => ⌊(t : ℚ) * s⌋).sum)] := by
      simp [hl]
    simp only [List.enumFrom]
    rw [h3]
    simp

lemma calculateDelayMs_eq (n : ℤ) :
    calculateDelayMs n = if n ≤ 2 then 0 else (n - 2) * 900000 := by
  unfold calculateDelayMs MIN_CHUNKS MAX_CHUNKS MAX_DELAY_MS
  split
  · rfl
  · show ⌊((n - 2 : ℤ) : ℚ) / ((10 - 2 : ℤ) : ℚ) * ((4 * 60 * 60 * 1000 : ℤ) : ℚ) / 2⌋
        = (n - 2) * 900000
    have e : ((n - 2 : ℤ) : ℚ) / ((10 - 2 : ℤ) : ℚ) * ((4 * 60 * 60 * 1000 : ℤ) : ℚ) / 2
        = (((n - 2) * 900000 : ℤ) : ℚ) := by
      push_cast
      ring
    rw [e, Int.floor_intCast]

lemma headI_mem {l : List ℤ} (h : l ≠ []) : l.headI ∈ l := by
  cases l with
  | nil => exact absurd rfl h
  | cons x xs => exact List.mem_cons_self x xs

lemma findBest_mem (prev : List ℤ) (used : List ℕ) (target : ℚ) (rem : ℤ)
    (hne : prev ≠ []) : (findBest prev used target rem).1 ∈ prev := by
  unfold findBest
  dsimp only
  have inv : ∀ (l : List ℕ) (b : ℤ × ℕ × ℚ), b.1 ∈ prev →
      (∀ j ∈ l, j < prev.length) →
      (l.foldl
        (fun b j =>
          if j ∈ used then b
          else
            if |((prev.getD j 0 : ℤ) : ℚ) - target| < b.2.2 ∧ prev.getD j 0 ≤ rem then
              (prev.getD j 0, j, |((prev.getD j 0 : ℤ) : ℚ) - target|)
            else b)
        b).1 ∈ prev := by
    intro l
    induction l with
    | nil => intro b hb _; exact hb
    | cons j js ih =>
        intro b hb hl
        simp only [List.foldl_cons]
        apply ih
        · split
          · exact hb
          · split
            · have hj : j < prev.length := hl j (List.mem_cons_self j js)
              rw [List.getD_eq_getElem prev 0 hj]
              exact List.getElem_mem hj
            · exact hb
        · exact fun x hx => hl x (List.mem_cons_of_mem j hx)
  exact inv _ _ (headI_mem hne) (fun j hj => List.mem_range.mp hj)

end Helpers

section Helpers2

lemma matchLoop_picksOk (prev : List ℤ) (hne : prev ≠ []) (j : ℕ) :
    ∀ rem used, PicksOk prev (j + 1) rem (matchLoop prev (j + 1) rem used) := by
  induction j with
  | zero => intro rem used; exact PicksOk.last rem
  | succ t ih =>
      intro rem used
      show PicksOk prev (t + 2) rem (matchLoop prev (t + 2) rem used)
      unfold matchLoop
      dsimp only
      split
      case isTrue h =>
        exact PicksOk.hist (findBest_mem prev used _ rem hne) h (ih _ _)
      case isFalse h =>
        exact PicksOk.fallback (ih _ _)

end Helpers2

section Helpers3

lemma statusOk_of_fst_ne {a b : ℕ × Status} (h : a.1 ≠ b.1) : StatusOk a b :=
  fun e _ _ => h e

lemma mem_runBlock_fst {x : ℕ × Status} {s k : ℕ} (h : x ∈ runBlock s k) :
    x.1 = s := by
  unfold runBlock at h
  rcases List.mem_append.mp h with h | h
  · rw [List.eq_of_mem_replicate h]
  · rw [List.mem_singleton.mp h]

lemma pairwise_runBlock (s k : ℕ) : (runBlock s k).Pairwise StatusOk := by
  unfold runBlock
  apply List.pairwise_append.mpr
  refine ⟨?_, ?_, ?_⟩
  · exact List.pairwise_replicate.mpr
      (Or.inr fun _ ht _ => by simp [isTerminalS] at ht)
  · exact List.pairwise_singleton _ _
  · intro a ha b hb
    rw [List.eq_of_mem_replicate ha]
    exact fun _ ht _ => by simp [isTerminalS] at ht

lemma mem_renderBlocks {c : ℕ × Status} {bs : List (ℕ × ℕ)}
    (h : c ∈ renderBlocks bs) : ∃ p ∈ bs, c.1 = p.1 := by
  unfold renderBlocks at h
  obtain ⟨p, hp, hc⟩ := List.mem_flatMap.mp h
  exact ⟨p, hp, mem_runBlock_fst hc⟩

lemma pairwise_renderBlocks (bs : List (ℕ × ℕ))
    (h : (bs.map Prod.fst).Pairwise (· ≠ ·)) :
    (renderBlocks bs).Pairwise StatusOk := by
  induction bs with
  | nil => exact List.Pairwise.nil
  | cons b tl ih =>
      rw [List.map_cons, List.pairwise_cons] at h
      show List.Pairwise StatusOk (runBlock b.1 b.2 ++ renderBlocks tl)
      apply List.pairwise_append.mpr
      refine ⟨pairwise_runBlock b.1 b.2, ih h.2, ?_⟩
      intro a ha c hc
      obtain ⟨p, hp, hcp⟩ := mem_renderBlocks hc
      refine statusOk_of_fst_ne ?_
      rw [mem_runBlock_fst ha, hcp]
      exact h.1 p.1 (List.mem_map_of_mem Prod.fst hp)

/-! ### `stepEvts` computations -/

lemma stepEvts_append (l₁ l₂ : List Event) :
    stepEvts (l₁ ++ l₂) = stepEvts l₁ ++ stepEvts l₂ :=
  List.filterMap_append l₁ l₂ _

lemma stepEvts_flatMap {γ : Type} (l : List γ) (f : γ → List Event) :
    stepEvts (l.flatMap f) = l.flatMap fun x => stepEvts (f x) := by
  induction l with
  | nil => rfl
  | cons x xs ih => simp [List.flatMap_cons, stepEvts_append, ih]

lemma flatMap_const_replicate {γ α : Type} (l : List γ) (k : ℕ) (a : α) :
    (l.flatMap fun _ => List.replicate k a) = List.replicate (l.length * k) a := by
  induction l with
  | nil => simp
  | cons x xs ih =>
      rw [List.flatMap_cons, ih, List.length_cons, Nat.succ_mul, Nat.add_comm,
        List.replicate_add]

lemma stepEvts_countdown (s t : ℕ) :
    stepEvts (countdownEvents s t) = List.replicate (t + 1) (s, Status.running) := by
  unfold countdownEvents
  induction t with
  | zero => rfl
  | succ u ih =>
      rw [List.replicate_succ (n := u + 1), List.flatten_cons, stepEvts_append]
      rw [List.replicate_succ (n := u + 1)]
      exact congrArg _ ih

lemma stepEvts_ensure (e : Bool) (s idx : ℕ) :
    stepEvts (ensureSwigEvents e s idx) =
      if e then [] else [(s, Status.running)] := by
  cases e <;> rfl

lemma stepEvts_deposit (s f t : ℕ) (a : ℤ) :
    stepEvts (depositToPoolEvents s f t a) =
      List.replicate 3 (s, Status.running) := rfl

lemma stepEvts_withdraw (s t : ℕ) (a : ℤ) (r : Addr) :
    stepEvts (withdrawFromPoolEvents s t a r) = [(s, Status.running)] := rfl

lemma stepEvts_burnerLoop (env : Env) (n : ℕ)
    (hb : ∀ k, 1 ≤ k → k ≤ n → env.swigExists k = true) :
    stepEvts (burnerLoop env n).1 = [] := by
  rw [burnerLoop_eq]
  dsimp only
  rw [stepEvts_flatMap]
  refine List.flatMap_eq_nil_iff.mpr fun k hk => ?_
  have hk' : k < n := List.mem_range.mp hk
  rw [stepEvts_append, stepEvts_ensure, if_pos (hb (k + 1) (by omega) (by omega))]
  rfl

lemma stepEvts_step7Loop (A : ℤ) (n : ℕ) :
    stepEvts (step7Loop A n).1 = List.replicate (n * 2) (7, Status.running) := by
  rw [step7Loop_eq]
  dsimp only
  rw [stepEvts_flatMap]
  rw [show (fun i => stepEvts (Event.step 7 .running ::
        withdrawFromPoolEvents 7 0 (chunkAt A n i) (Addr.wallet (i + 1)))) =
      (fun _ : ℕ => List.replicate 2 ((7 : ℕ), Status.running)) from rfl]
  rw [flatMap_const_replicate, List.length_range]

lemma stepEvts_step8Loop (A : ℤ) (n : ℕ) :
    stepEvts (step8Loop A n).1 = List.replicate (n * 4) (8, Status.running) := by
  rw [step8Loop_eq]
  dsimp only
  rw [stepEvts_flatMap]
  rw [show (fun i => stepEvts (Event.step 8 .running ::
        depositToPoolEvents 8 (i + 1) (i + 1) (chunkAt A n i))) =
      (fun _ : ℕ => List.replicate 4 ((8 : ℕ), Status.running)) from rfl]
  rw [flatMap_const_replicate, List.length_range]

lemma stepEvts_step11Loop (A : ℤ) (n : ℕ) (r : String) :
    stepEvts (step11Loop A n r).1 = List.replicate (n * 2) (11, Status.running) := by
  rw [step11Loop_eq]
  dsimp only
  rw [stepEvts_flatMap]
  rw [show (fun i => stepEvts (Event.step 11 .running ::
        withdrawFromPoolEvents 11 (i + 1) (chunkAt A n i) (Addr.dest r))) =
      (fun _ : ℕ => List.replicate 2 ((11 : ℕ), Status.running)) from rfl]
  rw [flatMap_const_replicate, List.length_range]

lemma stepEvts_nil : stepEvts [] = [] := rfl

lemma stepEvts_cons_step (n : ℕ) (st : Status) (tl : List Event) :
    stepEvts (Event.step n st :: tl) = (n, st) :: stepEvts tl := rfl

lemma stepEvts_cons_call (c : ExtCall) (tl : List Event) :
    stepEvts (Event.call c :: tl) = stepEvts tl := rfl

/-- The step-status picture of a successful trace in which every burner
wallet already exists: a sequence of `runBlock`s with strictly different
step numbers (step 5 and step 10 are skipped when the delay is zero; step 2
gets one extra `running` report when the main wallet has to be created). -/
lemma stepEvts_successEvents (env : Env) (A : ℤ) (n : ℕ) (r : String) (d : ℤ)
    (hb : ∀ k, 1 ≤ k → k ≤ n → env.swigExists k = true) :
    stepEvts (successEvents env A n r d) =
      renderBlocks
        ([(1, 1), (2, if env.swigExists 0 then 1 else 2), (3, 4), (4, 1)]
          ++ (if 0 < d then [(5, env.ticks5 + 1)] else [])
          ++ [(6, 1), (7, n * 2 + 1), (8, n * 4 + 1), (9, 1)]
          ++ (if 0 < d then [(10, env.ticks10 + 1)] else [])
          ++ [(11, n * 2 + 1)]) := by
  unfold successEvents preBalanceEvents
  by_cases hd : 0 < d <;>
  cases he : env.swigExists 0 <;>
    simp only [stepEvts_append, stepEvts_burnerLoop env n hb, stepEvts_step7Loop,
      stepEvts_step8Loop, stepEvts_step11Loop, stepEvts_countdown, stepEvts_ensure,
      stepEvts_deposit, stepEvts_withdraw, stepEvts_nil, stepEvts_cons_step,
      stepEvts_cons_call, renderBlocks, runBlock, hd, he, if_true, if_false,
      List.flatMap_cons, List.flatMap_nil, List.append_assoc, if_pos, if_neg] <;>
    simp [List.replicate_succ, List.replicate_add, List.append_assoc]

/-- Inversion of a successful run: the validity facts and the explicit
shapes of the trace and the signature list. -/
lemma run_ok {env : Env} {key r : String} {a : Option ℚ} {nc : ℤ}
    {res : PrivateSendResult}
    (h : (executePrivateSend env key r a nc).2 = Except.ok res) :
    MIN_CHUNKS ≤ nc ∧ nc ≤ MAX_CHUNKS ∧
    (executePrivateSend env key r a nc).1 =
      successEvents env (⌊a.getD 0 * (LAMPORTS_PER_SOL : ℚ)⌋) nc.toNat r
        (calculateDelayMs nc) ∧
    res.signatures =
      Sig.deposit 0 (⌊a.getD 0 * (LAMPORTS_PER_SOL : ℚ)⌋) ::
        ((step7Loop (⌊a.getD 0 * (LAMPORTS_PER_SOL : ℚ)⌋) nc.toNat).2 ++
         (step8Loop (⌊a.getD 0 * (LAMPORTS_PER_SOL : ℚ)⌋) nc.toNat).2 ++
         (step11Loop (⌊a.getD 0 * (LAMPORTS_PER_SOL : ℚ)⌋) nc.toNat r).2) := by
  unfold executePrivateSend at h ⊢
  dsimp only at h ⊢
  split_ifs at h ⊢ with h1 h2 h3 h4 h5
  have hres := Except.ok.inj h
  unfold MIN_CHUNKS MAX_CHUNKS at h4
  push_neg at h4
  refine ⟨?_, ?_, rfl, ?_⟩
  · unfold MIN_CHUNKS
    omega
  · unfold MAX_CHUNKS
    omega
  · rw [← hres]

/-! ### Amount extraction from a successful trace -/

lemma filterMap_flatMapE {γ : Type} (l : List γ) (g : γ → List Event)
    (f : Event → Option ℤ) :
    (l.flatMap g).filterMap f = l.flatMap fun x => (g x).filterMap f := by
  induction l with
  | nil => rfl
  | cons x xs ih => simp [List.flatMap_cons, List.filterMap_append, ih]

lemma filterMap_countdown (f : Event → Option ℤ) (s t : ℕ)
    (h1 : f (Event.step s .running) = none)
    (h2 : f (Event.call (.sleep 1000)) = none) :
    (countdownEvents s t).filterMap f = [] := by
  unfold countdownEvents
  induction t with
  | zero => simp [h1, h2]
  | succ u ih =>
      rw [List.replicate_succ (n := u + 1), List.flatten_cons, List.filterMap_append, ih]
      simp [h1, h2]

lemma step7Amounts_append (l1 l2 : List Event) :
    step7Amounts (l1 ++ l2) = step7Amounts l1 ++ step7Amounts l2 :=
  List.filterMap_append l1 l2 _

lemma step8Amounts_append (l1 l2 : List Event) :
    step8Amounts (l1 ++ l2) = step8Amounts l1 ++ step8Amounts l2 :=
  List.filterMap_append l1 l2 _

lemma step11Amounts_append (l1 l2 : List Event) :
    step11Amounts (l1 ++ l2) = step11Amounts l1 ++ step11Amounts l2 :=
  List.filterMap_append l1 l2 _

lemma step7Amounts_flatMap {γ : Type} (l : List γ) (g : γ → List Event) :
    step7Amounts (l.flatMap g) = l.flatMap fun x => step7Amounts (g x) :=
  filterMap_flatMapE l g _

lemma step8Amounts_flatMap {γ : Type} (l : List γ) (g : γ → List Event) :
    step8Amounts (l.flatMap g) = l.flatMap fun x => step8Amounts (g x) :=
  filterMap_flatMapE l g _

lemma step11Amounts_flatMap {γ : Type} (l : List γ) (g : γ → List Event) :
    step11Amounts (l.flatMap g) = l.flatMap fun x => step11Amounts (g x) :=
  filterMap_flatMapE l g _

lemma step7Amounts_countdown (s t : ℕ) : step7Amounts (countdownEvents s t) = [] :=
  filterMap_countdown _ s t rfl rfl

lemma step8Amounts_countdown (s t : ℕ) : step8Amounts (countdownEvents s t) = [] :=
  filterMap_countdown _ s t rfl rfl

lemma step11Amounts_countdown (s t : ℕ) : step11Amounts (countdownEvents s t) = [] :=
  filterMap_countdown _ s t rfl rfl

lemma step7Amounts_pre (env : Env) : step7Amounts (preBalanceEvents env) = [] := by
  unfold preBalanceEvents ensureSwigEvents
  cases env.swigExists 0 <;> rfl

lemma step8Amounts_pre (env : Env) : step8Amounts (preBalanceEvents env) = [] := by
  unfold preBalanceEvents ensureSwigEvents
  cases env.swigExists 0 <;> rfl

lemma step11Amounts_pre (env : Env) : step11Amounts (preBalanceEvents env) = [] := by
  unfold preBalanceEvents ensureSwigEvents
  cases env.swigExists 0 <;> rfl

lemma step7Amounts_burnerBlock (b : Bool) (i : ℕ) :
    step7Amounts (ensureSwigEvents b 5 i ++ [Event.call (.fetchSwig i)]) = [] := by
  cases b <;> rfl

lemma step8Amounts_burnerBlock (b : Bool) (i : ℕ) :
    step8Amounts (ensureSwigEvents b 5 i ++ [Event.call (.fetchSwig i)]) = [] := by
  cases b <;> rfl

lemma step11Amounts_burnerBlock (b : Bool) (i : ℕ) :
    step11Amounts (ensureSwigEvents b 5 i ++ [Event.call (.fetchSwig i)]) = [] := by
  cases b <;> rfl

lemma step7Amounts_block7 (a : ℤ) (i : ℕ) :
    step7Amounts (Event.step 7 .running ::
      withdrawFromPoolEvents 7 0 a (Addr.wallet i)) = [a] := rfl

lemma step7Amounts_block8 (a : ℤ) (i j : ℕ) :
    step7Amounts (Event.step 8 .running :: depositToPoolEvents 8 i j a) = [] := rfl

lemma step7Amounts_block11 (a : ℤ) (i : ℕ) (r : String) :
    step7Amounts (Event.step 11 .running ::
      withdrawFromPoolEvents 11 (i + 1) a (Addr.dest r)) = [] := rfl

lemma step8Amounts_block7 (a : ℤ) (i : ℕ) :
    step8Amounts (Event.step 7 .running ::
      withdrawFromPoolEvents 7 0 a (Addr.wallet i)) = [] := rfl

lemma step8Amounts_block8 (a : ℤ) (i j : ℕ) :
    step8Amounts (Event.step 8 .running ::
      depositToPoolEvents 8 (i + 1) (j + 1) a) = [a] := rfl

lemma step8Amounts_block11 (a : ℤ) (i : ℕ) (r : String) :
    step8Amounts (Event.step 11 .running ::
      withdrawFromPoolEvents 11 (i + 1) a (Addr.dest r)) = [] := rfl

lemma step11Amounts_block7 (a : ℤ) (i : ℕ) :
    step11Amounts (Event.step 7 .running ::
      withdrawFromPoolEvents 7 0 a (Addr.wallet i)) = [] := rfl

lemma step11Amounts_block8 (a : ℤ) (i j : ℕ) :
    step11Amounts (Event.step 8 .running :: depositToPoolEvents 8 i j a) = [] := rfl

lemma step11Amounts_block11 (a : ℤ) (i : ℕ) (r : String) :
    step11Amounts (Event.step 11 .running ::
      withdrawFromPoolEvents 11 (i + 1) a (Addr.dest r)) = [a] := rfl

lemma flatMap_const_nil {γ α : Type} (l : List γ) :
    (l.flatMap fun _ => ([] : List α)) = [] := by
  induction l with
  | nil => rfl
  | cons x xs ih => simp [List.flatMap_cons, ih]

lemma step7Amounts_ensure (b : Bool) (s i : ℕ) :
    step7Amounts (ensureSwigEvents b s i) = [] := by
  cases b <;> rfl

lemma step8Amounts_ensure (b : Bool) (s i : ℕ) :
    step8Amounts (ensureSwigEvents b s i) = [] := by
  cases b <;> rfl

lemma step11Amounts_ensure (b : Bool) (s i : ℕ) :
    step11Amounts (ensureSwigEvents b s i) = [] := by
  cases b <;> rfl

lemma step7Amounts_depositEvents (s f t : ℕ) (a : ℤ) :
    step7Amounts (depositToPoolEvents s f t a) = [] := rfl

lemma step8Amounts_depositEvents0 (s f : ℕ) (a : ℤ) :
    step8Amounts (depositToPoolEvents s f 0 a) = [] := rfl

lemma step11Amounts_depositEvents (s f t : ℕ) (a : ℤ) :
    step11Amounts (depositToPoolEvents s f t a) = [] := rfl

lemma step7Amounts_success (env : Env) (A : ℤ) (n : ℕ) (r : String) (d : ℤ) :
    step7Amounts (successEvents env A n r d) = withdrawalAmounts A n := by
  unfold successEvents
  rw [burnerLoop_eq, step7Loop_eq, step8Loop_eq, step11Loop_eq]
  dsimp only
  by_cases hd : 0 < d <;>
    simp only [hd, ite_true, ite_false, step7Amounts_append, step7Amounts_flatMap,
      step7Amounts_pre, step7Amounts_countdown, step7Amounts_burnerBlock,
      step7Amounts_ensure, step7Amounts_depositEvents,
      step7Amounts_block7, step7Amounts_block8, step7Amounts_block11] <;>
    simp [step7Amounts, flatMap_single, flatMap_const_nil, withdrawalAmounts]

lemma step8Amounts_success (env : Env) (A : ℤ) (n : ℕ) (r : String) (d : ℤ) :
    step8Amounts (successEvents env A n r d) = withdrawalAmounts A n := by
  unfold successEvents
  rw [burnerLoop_eq, step7Loop_eq, step8Loop_eq, step11Loop_eq]
  dsimp only
  by_cases hd : 0 < d <;>
    simp only [hd, ite_true, ite_false, step8Amounts_append, step8Amounts_flatMap,
      step8Amounts_pre, step8Amounts_countdown, step8Amounts_burnerBlock,
      step8Amounts_ensure, step8Amounts_depositEvents0,
      step8Amounts_block7, step8Amounts_block8, step8Amounts_block11] <;>
    simp [step8Amounts, flatMap_single, flatMap_const_nil, withdrawalAmounts]

lemma step11Amounts_success (env : Env) (A : ℤ) (n : ℕ) (r : String) (d : ℤ) :
    step11Amounts (successEvents env A n r d) = withdrawalAmounts A n := by
  unfold successEvents
  rw [burnerLoop_eq, step7Loop_eq, step8Loop_eq, step11Loop_eq]
  dsimp only
  by_cases hd : 0 < d <;>
    simp only [hd, ite_true, ite_false, step11Amounts_append, step11Amounts_flatMap,
      step11Amounts_pre, step11Amounts_countdown, step11Amounts_burnerBlock,
      step11Amounts_ensure, step11Amounts_depositEvents,
      step11Amounts_block7, step11Amounts_block8, step11Amounts_block11] <;>
    simp [step11Amounts, flatMap_single, flatMap_const_nil, withdrawalAmounts]

/-! ### Environment congruence (claim C8) -/

lemma preBalanceEvents_congr {env₁ env₂ : Env}
    (hsw : env₁.swigExists = env₂.swigExists) :
    preBalanceEvents env₁ = preBalanceEvents env₂ := by
  unfold preBalanceEvents
  rw [hsw]

lemma successEvents_congr {env₁ env₂ : Env}
    (hsw : env₁.swigExists = env₂.swigExists)
    (h5 : env₁.ticks5 = env₂.ticks5) (h10 : env₁.ticks10 = env₂.ticks10)
    (A : ℤ) (n : ℕ) (r : String) (d : ℤ) :
    successEvents env₁ A n r d = successEvents env₂ A n r d := by
  unfold successEvents preBalanceEvents burnerLoop
  simp only [hsw, h5, h10]

/-! ### Miscellaneous -/

lemma last_absorbs {l : List ℤ} {t : ℤ} (hne : l ≠ []) (hsum : l.sum = t) :
    l = l.dropLast ++ [t - l.dropLast.sum] := by
  have h2 : l.dropLast.sum + l.getLast hne = l.sum := by
    conv_rhs => rw [← List.dropLast_append_getLast hne]
    rw [List.sum_append, List.sum_cons, List.sum_nil, add_zero]
  conv_lhs => rw [← List.dropLast_append_getLast hne]
  have h3 : l.getLast hne = t - l.dropLast.sum := by omega
  rw [h3]

lemma length_le_sum {l : List ℤ} (h : ∀ c ∈ l, 1 ≤ c) :
    (l.length : ℤ) ≤ l.sum := by
  induction l with
  | nil => simp
  | cons x xs ih =>
      simp only [List.length_cons, List.sum_cons]
      have hx := h x (List.mem_cons_self x xs)
      have hxs := ih fun c hc => h c (List.mem_cons_of_mem x hc)
      push_cast
      omega

lemma matchChunks_length_sum (totalAmount : ℤ) (numChunks : ℕ)
    (previousAmounts : List ℤ) (splits : List ℚ)
    (h1 : 1 ≤ numChunks) (hs : splits.length = numChunks) :
    (matchChunksToPreviousDeposits totalAmount numChunks previousAmounts splits).length
        = numChunks ∧
    (matchChunksToPreviousDeposits totalAmount numChunks previousAmounts splits).sum
        = totalAmount := by
  unfold matchChunksToPreviousDeposits
  split
  · exact ⟨by rw [emptySplit_length, hs], emptySplit_sum totalAmount hs h1⟩
  · obtain ⟨m, rfl⟩ : ∃ m, numChunks = m + 1 := ⟨numChunks - 1, by omega⟩
    exact ⟨matchLoop_length _ m _ _, matchLoop_sum _ m _ _⟩

lemma floor_one_lamport :
    (⌊((some (1 : ℚ)).getD 0) * ((LAMPORTS_PER_SOL : ℤ) : ℚ)⌋ : ℤ) = 1000000000 := by
  norm_num [LAMPORTS_PER_SOL]

lemma matchChunks_envA_eval :
    matchChunksToPreviousDeposits 1000000000 2 [] [1/2, 1/2] =
      [500000000, 500000000] := by
  norm_num [matchChunksToPreviousDeposits, emptySplit, List.enum]

/-- Full evaluation of the successful reference run: 1 SOL, two chunks,
every wallet already provisioned. -/
lemma run_envA : executePrivateSend envA keyA "R" (some 1) 2 =
    (successEvents envA 1000000000 2 "R" 0, Except.ok resA) := by
  unfold executePrivateSend
  dsimp only
  rw [floor_one_lamport]
  rw [if_neg (by decide), if_neg (by simp [envA]), if_neg (by norm_num),
    if_neg (by decide), if_neg (by decide)]
  refine congrArg₂ Prod.mk ?_ ?_
  · rw [show calculateDelayMs 2 = 0 from by rw [calculateDelayMs_eq]; norm_num]
    rfl
  · show Except.ok _ = Except.ok resA
    refine congrArg Except.ok ?_
    rw [show (Int.toNat 2) = 2 from rfl]
    rw [show envA.previousAmounts = [] from rfl, show envA.splits = [1/2, 1/2] from rfl]
    rw [matchChunks_envA_eval]
    simp [resA, step7Loop_eq, step8Loop_eq, step11Loop_eq, burnerLoop_eq,
      List.range_succ, chunkAt]

/-- Trace of the run used to refute claim C9: three chunks (so the privacy
delay is positive) and burner 1 not yet provisioned. -/
lemma run_envB_trace : (executePrivateSend envB keyA "R" (some 1) 3).1 =
    successEvents envB 1000000000 3 "R" 900000 := by
  unfold executePrivateSend
  dsimp only
  rw [floor_one_lamport]
  rw [if_neg (by decide), if_neg (by simp [envB]), if_neg (by norm_num),
    if_neg (by decide), if_neg (by decide)]
  rw [show calculateDelayMs 3 = 900000 from by rw [calculateDelayMs_eq]; norm_num]
  rfl

end Helpers3

/-! # The claims -/

/-- C1: for every `totalAmount > 0`, every `chunkCount ∈ [MIN_CHUNKS,
MAX_CHUNKS]` and every `historicalAmounts` list (empty or not; `splits`
models the `generateRandomSplits(chunkCount)` output, one fraction per
chunk), the chunk planner returns exactly `chunkCount` integer amounts
whose sum is exactly `totalAmount`, with the remainder absorbed by the last
chunk. -/
theorem C1_plan_sum_count (totalAmount : ℤ) (numChunks : ℕ)
    (previousAmounts : List ℤ) (splits : List ℚ)
    (_hA : 0 < totalAmount) (h2 : 2 ≤ numChunks) (h10 : numChunks ≤ 10)
    (hs : splits.length = numChunks) :
    (matchChunksToPreviousDeposits totalAmount numChunks previousAmounts splits).length
        = numChunks ∧
    (matchChunksToPreviousDeposits totalAmount numChunks previousAmounts splits).sum
        = totalAmount ∧
    matchChunksToPreviousDeposits totalAmount numChunks previousAmounts splits =
      (matchChunksToPreviousDeposits totalAmount numChunks previousAmounts splits).dropLast
        ++ [totalAmount -
          (matchChunksToPreviousDeposits totalAmount numChunks previousAmounts
            splits).dropLast.sum] := by
  obtain ⟨hlen, hsum⟩ :=
    matchChunks_length_sum totalAmount numChunks previousAmounts splits (by omega) hs
  refine ⟨hlen, hsum, last_absorbs ?_ hsum⟩
  intro hnil
  rw [hnil] at hlen
  simp at hlen
  omega

theorem C1_witness :
    (matchChunksToPreviousDeposits 7 3 [] [1/3, 1/3, 1/3]).length = 3 ∧
    (matchChunksToPreviousDeposits 7 3 [] [1/3, 1/3, 1/3]).sum = 7 ∧
    matchChunksToPreviousDeposits 7 3 [] [1/3, 1/3, 1/3] =
      (matchChunksToPreviousDeposits 7 3 [] [1/3, 1/3, 1/3]).dropLast
        ++ [7 - (matchChunksToPreviousDeposits 7 3 [] [1/3, 1/3, 1/3]).dropLast.sum] :=
  C1_plan_sum_count 7 3 [] [1/3, 1/3, 1/3] (by norm_num) (by norm_num) (by norm_num)
    (by norm_num)

/-- C2: in every successful run, the per-burner amounts of step 7 are the
equal shares `⌊totalAmount / chunkCount⌋` with the remainder
`totalAmount % chunkCount` added to the last share; steps 8 and 11 move,
per burner, exactly the amounts of step 7; and the amounts of steps 7, 8
and 11 each sum to `totalAmount` exactly (`totalAmount` being the lamport
value `⌊amountSOL · 10⁹⌋`). -/
theorem C2_pipeline_conservation (env : Env) (key r : String) (a : Option ℚ)
    (nc : ℤ) (res : PrivateSendResult)
    (h : (executePrivateSend env key r a nc).2 = Except.ok res) :
    step7Amounts (executePrivateSend env key r a nc).1 =
      (List.range nc.toNat).map (fun i =>
        if i = nc.toNat - 1 then
          ⌊a.getD 0 * ((LAMPORTS_PER_SOL : ℤ) : ℚ)⌋ / nc.toNat
            + ⌊a.getD 0 * ((LAMPORTS_PER_SOL : ℤ) : ℚ)⌋ % nc.toNat
        else ⌊a.getD 0 * ((LAMPORTS_PER_SOL : ℤ) : ℚ)⌋ / nc.toNat) ∧
    step8Amounts (executePrivateSend env key r a nc).1 =
      step7Amounts (executePrivateSend env key r a nc).1 ∧
    step11Amounts (executePrivateSend env key r a nc).1 =
      step7Amounts (executePrivateSend env key r a nc).1 ∧
    (step7Amounts (executePrivateSend env key r a nc).1).sum =
      ⌊a.getD 0 * ((LAMPORTS_PER_SOL : ℤ) : ℚ)⌋ ∧
    (step8Amounts (executePrivateSend env key r a nc).1).sum =
      ⌊a.getD 0 * ((LAMPORTS_PER_SOL : ℤ) : ℚ)⌋ ∧
    (step11Amounts (executePrivateSend env key r a nc).1).sum =
      ⌊a.getD 0 * ((LAMPORTS_PER_SOL : ℤ) : ℚ)⌋ := by
  obtain ⟨h2, h10, htr, -⟩ := run_ok h
  have hn : 1 ≤ nc.toNat := by
    unfold MIN_CHUNKS at h2
    omega
  rw [htr, step7Amounts_success, step8Amounts_success, step11Amounts_success]
  exact ⟨rfl, rfl, rfl, withdrawalAmounts_sum _ hn, withdrawalAmounts_sum _ hn,
    withdrawalAmounts_sum _ hn⟩

theorem C2_witness :
    step7Amounts (executePrivateSend envA keyA "R" (some 1) 2).1 =
      (List.range (2 : ℤ).toNat).map (fun i =>
        if i = (2 : ℤ).toNat - 1 then
          ⌊(some (1 : ℚ)).getD 0 * ((LAMPORTS_PER_SOL : ℤ) : ℚ)⌋ / (2 : ℤ).toNat
            + ⌊(some (1 : ℚ)).getD 0 * ((LAMPORTS_PER_SOL : ℤ) : ℚ)⌋ % (2 : ℤ).toNat
        else ⌊(some (1 : ℚ)).getD 0 * ((LAMPORTS_PER_SOL : ℤ) : ℚ)⌋ / (2 : ℤ).toNat) ∧
    step8Amounts (executePrivateSend envA keyA "R" (some 1) 2).1 =
      step7Amounts (executePrivateSend envA keyA "R" (some 1) 2).1 ∧
    step11Amounts (executePrivateSend envA keyA "R" (some 1) 2).1 =
      step7Amounts (executePrivateSend envA keyA "R" (some 1) 2).1 ∧
    (step7Amounts (executePrivateSend envA keyA "R" (some 1) 2).1).sum =
      ⌊(some (1 : ℚ)).getD 0 * ((LAMPORTS_PER_SOL : ℤ) : ℚ)⌋ ∧
    (step8Amounts (executePrivateSend envA keyA "R" (some 1) 2).1).sum =
      ⌊(some (1 : ℚ)).getD 0 * ((LAMPORTS_PER_SOL : ℤ) : ℚ)⌋ ∧
    (step11Amounts (executePrivateSend envA keyA "R" (some 1) 2).1).sum =
      ⌊(some (1 : ℚ)).getD 0 * ((LAMPORTS_PER_SOL : ℤ) : ℚ)⌋ :=
  C2_pipeline_conservation envA keyA "R" (some 1) 2 resA (by rw [run_envA])

/-- C3 counterexample: at `MAX_CHUNKS` the scheduler returns half of
`MAX_DELAY_MS` (7 200 000 ms = 2 h), not `MAX_DELAY_MS` (14 400 000 ms =
4 h), because the source halves the interpolated delay before returning
it. -/
theorem C3_counterexample :
    calculateDelayMs MAX_CHUNKS = 7200000 ∧
    MAX_DELAY_MS = 14400000 ∧
    calculateDelayMs MAX_CHUNKS ≠ MAX_DELAY_MS := by
  rw [calculateDelayMs_eq]
  unfold MAX_CHUNKS MAX_DELAY_MS
  norm_num

/-- C3 amended: the scheduler returns 0 at `MIN_CHUNKS` and **half** of
`MAX_DELAY_MS` at `MAX_CHUNKS` (the pipeline sleeps twice, so the two
delays together realise the nominal maximum), and it is non-decreasing on
`[MIN_CHUNKS, MAX_CHUNKS]`. -/
theorem C3_amended :
    calculateDelayMs MIN_CHUNKS = 0 ∧
    2 * calculateDelayMs MAX_CHUNKS = MAX_DELAY_MS ∧
    ∀ a b : ℤ, MIN_CHUNKS ≤ a → a ≤ b → b ≤ MAX_CHUNKS →
      calculateDelayMs a ≤ calculateDelayMs b := by
  refine ⟨by rw [calculateDelayMs_eq]; norm_num [MIN_CHUNKS],
    by rw [calculateDelayMs_eq]; norm_num [MAX_CHUNKS, MAX_DELAY_MS], ?_⟩
  intro a b ha hab hb
  rw [calculateDelayMs_eq, calculateDelayMs_eq]
  unfold MIN_CHUNKS at ha
  unfold MAX_CHUNKS at hb
  split_ifs <;> omega

theorem C3_witness : calculateDelayMs 3 ≤ calculateDelayMs 7 :=
  C3_amended.2.2 3 7 (by decide) (by decide) (by decide)

/-- C4: whenever the chunk count is out of range, or the master key is
malformed, or the recipient address is invalid, or the amount is missing or
not positive, `executePrivateSend` throws before emitting a single event:
no external call is made and `onStepUpdate` is never invoked. -/
theorem C4_fail_fast (env : Env) (key r : String) (a : Option ℚ) (nc : ℤ)
    (h : nc < MIN_CHUNKS ∨ MAX_CHUNKS < nc ∨
      isValidPrivateKey (formatKey key) = false ∨
      env.validSolanaAddress r = false ∨
      a = none ∨ ∃ v, a = some v ∧ v ≤ 0) :
    (executePrivateSend env key r a nc).1 = [] ∧
    runOutcomeOk (executePrivateSend env key r a nc) = false := by
  unfold executePrivateSend
  dsimp only
  by_cases k1 : ¬ isValidPrivateKey (formatKey key) = true
  · rw [if_pos k1]
    exact ⟨rfl, rfl⟩
  rw [if_neg k1]
  by_cases k2 : ¬ env.validSolanaAddress r = true
  · rw [if_pos k2]
    exact ⟨rfl, rfl⟩
  rw [if_neg k2]
  by_cases k3 : a.isNone = true ∨ a.getD 0 ≤ 0
  · rw [if_pos k3]
    exact ⟨rfl, rfl⟩
  rw [if_neg k3]
  have k4 : nc < MIN_CHUNKS ∨ MAX_CHUNKS < nc := by
    rcases h with h | h | h | h | h | ⟨v, rfl, hv⟩
    · exact Or.inl h
    · exact Or.inr h
    · exact absurd (show ¬ isValidPrivateKey (formatKey key) = true by simp [h]) k1
    · exact absurd (show ¬ env.validSolanaAddress r = true by simp [h]) k2
    · exact absurd (Or.inl (by simp [h])) k3
    · exact absurd (Or.inr (by simpa using hv)) k3
  rw [if_pos k4]
  exact ⟨rfl, rfl⟩

theorem C4_witness :
    (executePrivateSend envA keyA "R" (some 1) 11).1 = [] ∧
    runOutcomeOk (executePrivateSend envA keyA "R" (some 1) 11) = false :=
  C4_fail_fast envA keyA "R" (some 1) 11 (Or.inr (Or.inl (by decide)))

/-- C5 counterexample: with 1 lamport to split into 2 chunks
(`totalAmount < chunkCount`), no InsufficientAmount condition is signalled
anywhere: the planner silently returns the chunks `[0, 1]` (one of them
zero), and the whole run returns normally. -/
theorem C5_counterexample :
    matchChunksToPreviousDeposits 1 2 [] [1/2, 1/2] = [0, 1] ∧
    runOutcomeOk (executePrivateSend envA keyA "R" (some (1/1000000000)) 2) = true := by
  constructor
  · norm_num [matchChunksToPreviousDeposits, emptySplit, List.enum]
  · have hA : (⌊((some (1/1000000000 : ℚ)).getD 0) * ((LAMPORTS_PER_SOL : ℤ) : ℚ)⌋ : ℤ)
        = 1 := by
      norm_num [LAMPORTS_PER_SOL]
    unfold executePrivateSend
    dsimp only
    rw [hA]
    rw [if_neg (by decide), if_neg (by simp [envA]), if_neg (by norm_num),
      if_neg (by decide), if_neg (by decide)]
    rfl

/-- C5 amended: a `totalAmount` too small to split into `chunkCount`
positive parts is *not* rejected: the planner still returns exactly
`chunkCount` amounts summing to `totalAmount`, and consequently at least
one chunk is ≤ 0 (silently produced, not reported). -/
theorem C5_amended (totalAmount : ℤ) (numChunks : ℕ) (previousAmounts : List ℤ)
    (splits : List ℚ) (h2 : 2 ≤ numChunks) (h10 : numChunks ≤ 10)
    (hs : splits.length = numChunks) (hsmall : totalAmount < numChunks) :
    (matchChunksToPreviousDeposits totalAmount numChunks previousAmounts splits).length
        = numChunks ∧
    (matchChunksToPreviousDeposits totalAmount numChunks previousAmounts splits).sum
        = totalAmount ∧
    (matchChunksToPreviousDeposits totalAmount numChunks previousAmounts splits).any
        (fun c => decide (c ≤ 0)) = true := by
  obtain ⟨hlen, hsum⟩ :=
    matchChunks_length_sum totalAmount numChunks previousAmounts splits (by omega) hs
  refine ⟨hlen, hsum, ?_⟩
  rw [List.any_eq_true]
  by_contra hc
  push_neg at hc
  have hall : ∀ c ∈ matchChunksToPreviousDeposits totalAmount numChunks
      previousAmounts splits, 1 ≤ c := by
    intro c hcmem
    have := hc c hcmem
    simp at this
    omega
  have := length_le_sum hall
  rw [hlen, hsum] at this
  omega

theorem C5_amended_witness :
    (matchChunksToPreviousDeposits 1 2 [] [1/2, 1/2]).length = 2 ∧
    (matchChunksToPreviousDeposits 1 2 [] [1/2, 1/2]).sum = 1 ∧
    (matchChunksToPreviousDeposits 1 2 [] [1/2, 1/2]).any
        (fun c => decide (c ≤ 0)) = true :=
  C5_amended 1 2 [] [1/2, 1/2] (by norm_num) (by norm_num) (by norm_num) (by norm_num)

/-- C6 counterexample: with history `[5]`, `totalAmount = 100` and three
chunks, the source planner selects the single historical amount (index 0)
for *both* non-final slots — the candidate search initialises with
`previousAmounts[0]` without checking the used set — yielding `[5, 5, 90]`,
whereas the selection rule stated by the claim (closest unused in-budget
match, proportional fallback once the history is exhausted) yields
`[5, 47, 48]`. -/
theorem C6_counterexample :
    matchChunksToPreviousDeposits 100 3 [5] [] = [5, 5, 90] ∧
    specMatchChunks 100 3 [5] = [5, 47, 48] ∧
    matchChunksToPreviousDeposits 100 3 [5] [] ≠ specMatchChunks 100 3 [5] := by
  have h1 : matchChunksToPreviousDeposits 100 3 [5] [] = [5, 5, 90] := by
    norm_num [matchChunksToPreviousDeposits, matchLoop, findBest,
      List.range_succ, abs_sub_lt_iff]
  have h2 : specMatchChunks 100 3 [5] = [5, 47, 48] := by
    norm_num [specMatchChunks, specMatchLoop, specFindBest, List.range_succ]
  refine ⟨h1, h2, ?_⟩
  rw [h1, h2]
  decide

/-- C6 amended: when the history is non-empty, each of the first
`chunkCount − 1` slots receives either a historical amount that does not
exceed the budget remaining at that slot, or the floored proportional split
of that remaining budget, and the final slot receives the whole remaining
budget (`PicksOk`).  The stronger claims — that a historical amount is
never selected for two slots and that the fallback occurs only when no
historical value fits — do not hold (see the counterexample): the candidate
search starts from `previousAmounts[0]` without budget or reuse checks. -/
theorem C6_amended (totalAmount : ℤ) (numChunks : ℕ) (previousAmounts : List ℤ)
    (splits : List ℚ) (hne : previousAmounts ≠ []) (h1 : 1 ≤ numChunks) :
    PicksOk previousAmounts numChunks totalAmount
      (matchChunksToPreviousDeposits totalAmount numChunks previousAmounts splits) := by
  unfold matchChunksToPreviousDeposits
  rw [if_neg (by simpa [List.isEmpty_iff] using hne)]
  obtain ⟨m, rfl⟩ : ∃ m, numChunks = m + 1 := ⟨numChunks - 1, by omega⟩
  exact matchLoop_picksOk previousAmounts hne m totalAmount []

theorem C6_amended_witness :
    PicksOk [5] 3 100 (matchChunksToPreviousDeposits 100 3 [5] []) :=
  C6_amended 100 3 [5] [] (by simp) (by norm_num)

/-- C7: burner-key and temp-keypair derivation are deterministic: their
output is a function of the master key and the index alone — for any two
ambient worlds (clock, entropy source, machine identity) the outputs
coincide, the cryptographic primitives themselves (viem signing with
RFC-6979 deterministic nonces, keccak256, seed-based keypair construction)
being fixed pure functions. -/
theorem C7_derivation_deterministic (cp : CryptoPrims) (w₁ w₂ : World)
    (mainPrivateKey : String) (index : ℕ) :
    deriveBurnerPrivateKey cp w₁ mainPrivateKey index =
      deriveBurnerPrivateKey cp w₂ mainPrivateKey index ∧
    deriveTempKeypair cp w₁ mainPrivateKey index =
      deriveTempKeypair cp w₂ mainPrivateKey index :=
  ⟨rfl, rfl⟩

/-- C8: the matched chunk amounts are informational only.  Two runs that
differ solely in the pool-history answer produce identical event traces —
in particular identical amounts in every on-chain transfer, deposit and
withdrawal of steps 3, 7, 8 and 11 — and identical results except for the
`matchedAmounts` field. -/
theorem C8_history_informational (env : Env) (p : List ℤ) (key r : String)
    (a : Option ℚ) (nc : ℤ) :
    (executePrivateSend { env with previousAmounts := p } key r a nc).1 =
      (executePrivateSend env key r a nc).1 ∧
    (executePrivateSend { env with previousAmounts := p } key r a nc).2.map clearMatched =
      (executePrivateSend env key r a nc).2.map clearMatched := by
  unfold executePrivateSend
  dsimp only
  by_cases k1 : ¬ isValidPrivateKey (formatKey key) = true
  · rw [if_pos k1, if_pos k1]
    exact ⟨rfl, rfl⟩
  rw [if_neg k1, if_neg k1]
  by_cases k2 : ¬ env.validSolanaAddress r = true
  · rw [if_pos k2, if_pos k2]
    exact ⟨rfl, rfl⟩
  rw [if_neg k2, if_neg k2]
  by_cases k3 : a.isNone = true ∨ a.getD 0 ≤ 0
  · rw [if_pos k3, if_pos k3]
    exact ⟨rfl, rfl⟩
  rw [if_neg k3, if_neg k3]
  by_cases k4 : nc < MIN_CHUNKS ∨ MAX_CHUNKS < nc
  · rw [if_pos k4, if_pos k4]
    exact ⟨rfl, rfl⟩
  rw [if_neg k4, if_neg k4]
  by_cases k5 : env.mainBalance < ⌊a.getD 0 * ((LAMPORTS_PER_SOL : ℤ) : ℚ)⌋ + 1000000
  · rw [if_pos k5, if_pos k5]
    exact ⟨preBalanceEvents_congr rfl, rfl⟩
  rw [if_neg k5, if_neg k5]
  refine ⟨successEvents_congr rfl rfl rfl _ _ _ _, ?_⟩
  simp only [Except.map]
  refine congrArg Except.ok ?_
  unfold clearMatched
  simp [burnerLoop_eq]

theorem C9_counterexample :
    ¬ (stepEvts (executePrivateSend envB keyA "R" (some 1) 3).1).Pairwise StatusOk := by
  rw [run_envB_trace]
  decide

/-- C9 amended: within one successful call in which every burner wallet
already exists on-chain, no step status ever transitions backward: once a
step is reported with a terminal status, no later callback reports that
step active again.  (Without that proviso the claim is false: during step 6
the wallet-creation progress callback is wired to step **5**, so a run with
a positive privacy delay that must create a burner wallet reports step 5
`running` after its `completed` — the counterexample.) -/
theorem C9_no_backward (env : Env) (key r : String) (a : Option ℚ) (nc : ℤ)
    (res : PrivateSendResult)
    (h : (executePrivateSend env key r a nc).2 = Except.ok res)
    (hb : ∀ k, 1 ≤ k → k ≤ nc.toNat → env.swigExists k = true) :
    (stepEvts (executePrivateSend env key r a nc).1).Pairwise StatusOk := by
  obtain ⟨-, -, htr, -⟩ := run_ok h
  rw [htr, stepEvts_successEvents _ _ _ _ _ hb]
  apply pairwise_renderBlocks
  by_cases hd : 0 < calculateDelayMs nc <;> simp [hd]

theorem C9_witness :
    (stepEvts (executePrivateSend envA keyA "R" (some 1) 2).1).Pairwise StatusOk :=
  C9_no_backward envA keyA "R" (some 1) 2 resA (by rw [run_envA])
    (fun k h1k hk2 => rfl)

/-- C10: in every successful run the signature list contains exactly
`1 + 3·chunkCount` entries, in this order: the single main-wallet pool
deposit of step 3, then the `chunkCount` per-burner pool withdrawals of
step 7 in burner order, then the `chunkCount` burner pool deposits of
step 8 in burner order, then the `chunkCount` final withdrawals to the
recipient of step 11 in burner order. -/
theorem C10_signature_order (env : Env) (key r : String) (a : Option ℚ)
    (nc : ℤ) (res : PrivateSendResult)
    (h : (executePrivateSend env key r a nc).2 = Except.ok res) :
    res.signatures =
      Sig.deposit 0 (⌊a.getD 0 * ((LAMPORTS_PER_SOL : ℤ) : ℚ)⌋) ::
        (((List.range nc.toNat).map fun i =>
            Sig.withdraw 0 (chunkAt (⌊a.getD 0 * ((LAMPORTS_PER_SOL : ℤ) : ℚ)⌋) nc.toNat i)
              (Addr.wallet (i + 1))) ++
         ((List.range nc.toNat).map fun i =>
            Sig.deposit (i + 1)
              (chunkAt (⌊a.getD 0 * ((LAMPORTS_PER_SOL : ℤ) : ℚ)⌋) nc.toNat i)) ++
         ((List.range nc.toNat).map fun i =>
            Sig.withdraw (i + 1)
              (chunkAt (⌊a.getD 0 * ((LAMPORTS_PER_SOL : ℤ) : ℚ)⌋) nc.toNat i)
              (Addr.dest r))) ∧
    res.signatures.length = 1 + 3 * nc.toNat := by
  obtain ⟨-, -, -, hsig⟩ := run_ok h
  have he : res.signatures =
      Sig.deposit 0 (⌊a.getD 0 * ((LAMPORTS_PER_SOL : ℤ) : ℚ)⌋) ::
        (((List.range nc.toNat).map fun i =>
            Sig.withdraw 0 (chunkAt (⌊a.getD 0 * ((LAMPORTS_PER_SOL : ℤ) : ℚ)⌋) nc.toNat i)
              (Addr.wallet (i + 1))) ++
         ((List.range nc.toNat).map fun i =>
            Sig.deposit (i + 1)
              (chunkAt (⌊a.getD 0 * ((LAMPORTS_PER_SOL : ℤ) : ℚ)⌋) nc.toNat i)) ++
         ((List.range nc.toNat).map fun i =>
            Sig.withdraw (i + 1)
              (chunkAt (⌊a.getD 0 * ((LAMPORTS_PER_SOL : ℤ) : ℚ)⌋) nc.toNat i)
              (Addr.dest r))) := by
    rw [hsig, step7Loop_eq, step8Loop_eq, step11Loop_eq]
  refine ⟨he, ?_⟩
  rw [he]
  simp [List.length_append]
  ring

theorem C10_witness :
    resA.signatures =
      Sig.deposit 0 (⌊(some (1 : ℚ)).getD 0 * ((LAMPORTS_PER_SOL : ℤ) : ℚ)⌋) ::
        (((List.range (2 : ℤ).toNat).map fun i =>
            Sig.withdraw 0
              (chunkAt (⌊(some (1 : ℚ)).getD 0 * ((LAMPORTS_PER_SOL : ℤ) : ℚ)⌋)
                (2 : ℤ).toNat i)
              (Addr.wallet (i + 1))) ++
         ((List.range (2 : ℤ).toNat).map fun i =>
            Sig.deposit (i + 1)
              (chunkAt (⌊(some (1 : ℚ)).getD 0 * ((LAMPORTS_PER_SOL : ℤ) : ℚ)⌋)
                (2 : ℤ).toNat i)) ++
         ((List.range (2 : ℤ).toNat).map fun i =>
            Sig.withdraw (i + 1)
              (chunkAt (⌊(some (1 : ℚ)).getD 0 * ((LAMPORTS_PER_SOL : ℤ) : ℚ)⌋)
                (2 : ℤ).toNat i)
              (Addr.dest "R"))) ∧
    resA.signatures.length = 1 + 3 * (2 : ℤ).toNat :=
  C10_signature_order envA keyA "R" (some 1) 2 resA (by rw [run_envA])

end PrivateSend